import Mathlib

/-!
Verification of the Picxel-Puzzle quantization/partition pipeline and the
pixel-editor undo/redo engine, as a shallow embedding of the TypeScript
source (server route `registerRoutes` and client `pixel-editor.tsx`).

Numeric color conversions (sRGB linearization, XYZ, L*a*b*) are modelled
over the real numbers, idealizing IEEE-754 doubles; the nearest-color
search property proved about them is independent of rounding.
-/

namespace Picxel

open Classical

/-- An RGB triple as produced by the decoded image buffer (components 0..255). -/
abbrev RGB := Nat × Nat × Nat

/-- Palette entry `{ name, hex }` (source: `BRICK_COLORS` entries). -/
structure NamedColor where
  name : String
  hex : String
deriving DecidableEq

/-- The fixed 39-entry brick palette (source: `BRICK_COLORS` in the routes file). -/
def BRICK_COLORS : List NamedColor := [
  ⟨"Cactus", "#000000"⟩,
  ⟨"Basketball Court", "#3C3C3C"⟩,
  ⟨"Kite", "#5F5F5F"⟩,
  ⟨"Controller", "#A0A0A0"⟩,
  ⟨"Soccer Ball", "#F5F5F5"⟩,
  ⟨"Hamburger", "#5A1E0A"⟩,
  ⟨"Basketball", "#780000"⟩,
  ⟨"Watermelon", "#AA0000"⟩,
  ⟨"Football", "#E65064"⟩,
  ⟨"Pokercard", "#FFC8E6"⟩,
  ⟨"Finishing Flag", "#C855A0"⟩,
  ⟨"Rocket", "#9B0069"⟩,
  ⟨"Hotdog", "#4B5528"⟩,
  ⟨"Cocktail Glass", "#005032"⟩,
  ⟨"Clapperboard", "#00785A"⟩,
  ⟨"Game Controller", "#00A528"⟩,
  ⟨"French Fries", "#A0C814"⟩,
  ⟨"Popsicle", "#AAFFAA"⟩,
  ⟨"Bread", "#825032"⟩,
  ⟨"Ghost", "#AF9655"⟩,
  ⟨"Fried Egg", "#787355"⟩,
  ⟨"Cupcake", "#648264"⟩,
  ⟨"Biscuit", "#C7925B"⟩,
  ⟨"Sunglasses", "#FFA546"⟩,
  ⟨"Carrot", "#F0876E"⟩,
  ⟨"Pizza", "#FAAA82"⟩,
  ⟨"Guitar", "#FFFC30"⟩,
  ⟨"Crayon", "#F0DC96"⟩,
  ⟨"Lemon", "#FFFF96"⟩,
  ⟨"Backboard", "#FFDCC8"⟩,
  ⟨"Hourglass", "#5A4196"⟩,
  ⟨"Tv", "#2D1473"⟩,
  ⟨"Table Tennis", "#505F78"⟩,
  ⟨"Usb", "#00468C"⟩,
  ⟨"Mouse", "#006EB4"⟩,
  ⟨"Balloon", "#5FA5F5"⟩,
  ⟨"Diskette", "#46D2E6"⟩,
  ⟨"Heart", "#B9FFEB"⟩,
  ⟨"Crosswords", "#D88571"⟩]

/-- Value of one hexadecimal digit, `none` when the character is not a hex
digit (the source regex class is `[a-f\d]` with the `i` flag). -/
def hexDigitVal (c : Char) : Option Nat :=
  if '0' ≤ c ∧ c ≤ '9' then some (c.toNat - '0'.toNat)
  else if 'a' ≤ c ∧ c ≤ 'f' then some (c.toNat - 'a'.toNat + 10)
  else if 'A' ≤ c ∧ c ≤ 'F' then some (c.toNat - 'A'.toNat + 10)
  else none

/-- Value of a two-hex-digit pair, mirroring `parseInt(result[i], 16)` on a
capture of two hex characters. -/
def hexPairVal (c1 c2 : Char) : Option Nat :=
  match hexDigitVal c1, hexDigitVal c2 with
  | some h1, some h2 => some (h1 * 16 + h2)
  | _, _ => none

/-- Function `hexToRgb`: parse `#?RRGGBB` into an RGB triple; any string the
source regex rejects yields `[0, 0, 0]`. -/
def hexToRgb (hex : String) : RGB :=
  let cs := hex.data
  let cs := if cs.headD ' ' = '#' then cs.tail else cs
  match cs with
  | [a, b, c, d, e, f] =>
    match hexPairVal a b, hexPairVal c d, hexPairVal e f with
    | some r, some g, some bl => (r, g, bl)
    | _, _, _ => (0, 0, 0)
  | _ => (0, 0, 0)

/-- sRGB inverse-gamma linearization of one component, scaled by 100
(source: the `rgb.map` callback inside `rgbToLab`). -/
noncomputable def linearize (c : Nat) : ℝ :=
  let cf : ℝ := (c : ℝ) / 255
  (if cf > 0.04045 then ((cf + 0.055) / 1.055) ^ (2.4 : ℝ) else cf / 12.92) * 100

/-- The piecewise cube-root/linear Lab transfer function (threshold 0.008856). -/
noncomputable def labF (t : ℝ) : ℝ :=
  if t > 0.008856 then t ^ ((1 : ℝ) / 3) else 7.787 * t + 16 / 116

/-- Function `rgbToLab`: sRGB → linear RGB → XYZ (D65, reference white
95.047/100.0/108.883) → L*a*b*. -/
noncomputable def rgbToLab (rgb : RGB) : ℝ × ℝ × ℝ :=
  let r := linearize rgb.1
  let g := linearize rgb.2.1
  let b := linearize rgb.2.2
  let x := (r * 0.4124 + g * 0.3576 + b * 0.1805) / 95.047
  let y := (r * 0.2126 + g * 0.7152 + b * 0.0722) / 100.0
  let z := (r * 0.0193 + g * 0.1192 + b * 0.9505) / 108.883
  let fx := labF x
  let fy := labF y
  let fz := labF z
  (116 * fy - 16, 500 * (fx - fy), 200 * (fy - fz))

/-- Function `colorDistance`: Euclidean distance between the two Lab images
(despite the source comment naming Delta-E CIE 2000). -/
noncomputable def colorDistance (color1 color2 : RGB) : ℝ :=
  let lab1 := rgbToLab color1
  let lab2 := rgbToLab color2
  let deltaL := lab1.1 - lab2.1
  let deltaA := lab1.2.1 - lab2.2.1
  let deltaB := lab1.2.2 - lab2.2.2
  Real.sqrt (deltaL * deltaL + deltaA * deltaA + deltaB * deltaB)

/-- The running-minimum comparison `distance < minDistance`, where `none`
stands for the initial `Infinity`. -/
def distLtOpt (d : ℝ) : Option ℝ → Prop
  | none => True
  | some m => d < m

/-- The `for (const color of BRICK_COLORS)` loop of `findClosestBrickColor`:
state is the current `closestColor` and `minDistance` (`none` = `Infinity`). -/
noncomputable def findLoop (rgb : RGB) : List NamedColor → NamedColor → Option ℝ → NamedColor
  | [], best, _ => best
  | c :: rest, best, m =>
    let d := colorDistance rgb (hexToRgb c.hex)
    if distLtOpt d m then findLoop rgb rest c (some d) else findLoop rgb rest best m

/-- Function `findClosestBrickColor`: linear scan of the palette keeping the
first entry achieving the strictly smallest distance seen so far. -/
noncomputable def findClosestBrickColor (rgb : RGB) : NamedColor :=
  findLoop rgb BRICK_COLORS (BRICK_COLORS.headD ⟨"", ""⟩) none

/-- Distance from the sample to a palette entry's RGB value. -/
noncomputable def distTo (rgb : RGB) (c : NamedColor) : ℝ :=
  colorDistance rgb (hexToRgb c.hex)

lemma findLoop_cons (rgb : RGB) (c : NamedColor) (rest : List NamedColor)
    (best : NamedColor) (m : Option ℝ) :
    findLoop rgb (c :: rest) best m =
      if distLtOpt (distTo rgb c) m then findLoop rgb rest c (some (distTo rgb c))
      else findLoop rgb rest best m := by
  simp only [findLoop, distTo]

lemma findLoop_spec (rgb : RGB) (l : List NamedColor) :
    ∀ (best : NamedColor) (mb : ℝ),
      (findLoop rgb l best (some mb) = best ∧ ∀ c ∈ l, mb ≤ distTo rgb c) ∨
      (∃ l₁ l₂, l = l₁ ++ findLoop rgb l best (some mb) :: l₂ ∧
        distTo rgb (findLoop rgb l best (some mb)) < mb ∧
        (∀ c ∈ l₁, distTo rgb (findLoop rgb l best (some mb)) < distTo rgb c) ∧
        (∀ c ∈ l₂, distTo rgb (findLoop rgb l best (some mb)) ≤ distTo rgb c)) := by
  induction l with
  | nil =>
    intro best mb
    exact Or.inl ⟨rfl, by simp⟩
  | cons c rest ih =>
    intro best mb
    by_cases hlt : distLtOpt (distTo rgb c) (some mb)
    · have hstep : findLoop rgb (c :: rest) best (some mb)
          = findLoop rgb rest c (some (distTo rgb c)) := by
        rw [findLoop_cons, if_pos hlt]
      have hcm : distTo rgb c < mb := hlt
      rw [hstep]
      rcases ih c (distTo rgb c) with ⟨heq, hall⟩ | ⟨l₁, l₂, hdec, hless, hstrict, hle⟩
      · rw [heq]
        exact Or.inr ⟨[], rest, rfl, hcm, by simp, hall⟩
      · refine Or.inr ⟨c :: l₁, l₂,
          by rw [List.cons_append]; exact congrArg (List.cons c) hdec,
          lt_trans hless hcm, ?_, hle⟩
        intro x hx
        rcases List.mem_cons.1 hx with hx | hx
        · exact hx ▸ hless
        · exact hstrict x hx
    · have hstep : findLoop rgb (c :: rest) best (some mb)
          = findLoop rgb rest best (some mb) := by
        rw [findLoop_cons, if_neg hlt]
      have hge : mb ≤ distTo rgb c := not_lt.1 hlt
      rw [hstep]
      rcases ih best mb with ⟨heq, hall⟩ | ⟨l₁, l₂, hdec, hless, hstrict, hle⟩
      · refine Or.inl ⟨heq, ?_⟩
        intro x hx
        rcases List.mem_cons.1 hx with hx | hx
        · exact hx ▸ hge
        · exact hall x hx
      · refine Or.inr ⟨c :: l₁, l₂,
          by rw [List.cons_append]; exact congrArg (List.cons c) hdec,
          hless, ?_, hle⟩
        intro x hx
        rcases List.mem_cons.1 hx with hx | hx
        · exact hx ▸ lt_of_lt_of_le hless hge
        · exact hstrict x hx

lemma min_of_decomp (rgb : RGB) {r : NamedColor} {l₁ l₂ L : List NamedColor}
    (h : L = l₁ ++ r :: l₂)
    (h1 : ∀ c ∈ l₁, distTo rgb r < distTo rgb c)
    (h2 : ∀ c ∈ l₂, distTo rgb r ≤ distTo rgb c) :
    ∀ c ∈ L, distTo rgb r ≤ distTo rgb c := by
  subst h
  intro c hc
  rcases List.mem_append.1 hc with hc | hc
  · exact le_of_lt (h1 c hc)
  · rcases List.mem_cons.1 hc with hc | hc
    · exact hc ▸ le_refl _
    · exact h2 c hc

/-- C1: `findClosestBrickColor(p)` returns a palette entry whose Lab-Euclidean
distance to `p` is ≤ the distance from `p` to every palette entry, and the
palette splits as `l₁ ++ result :: l₂` with every entry of `l₁` strictly
farther — i.e. ties go to the earliest palette entry. -/
theorem C1_findClosest_nearest (rgb : RGB) :
    (∀ c ∈ BRICK_COLORS, distTo rgb (findClosestBrickColor rgb) ≤ distTo rgb c) ∧
    ∃ l₁ l₂, BRICK_COLORS = l₁ ++ findClosestBrickColor rgb :: l₂ ∧
      (∀ c ∈ l₁, distTo rgb (findClosestBrickColor rgb) < distTo rgb c) ∧
      (∀ c ∈ l₂, distTo rgb (findClosestBrickColor rgb) ≤ distTo rgb c) := by
  have hpal : ∃ c₀ rest, BRICK_COLORS = c₀ :: rest ∧ BRICK_COLORS.headD ⟨"", ""⟩ = c₀ :=
    ⟨⟨"Cactus", "#000000"⟩, _, rfl, rfl⟩
  obtain ⟨c₀, rest, hLC, hhead⟩ := hpal
  have hstep : findClosestBrickColor rgb = findLoop rgb rest c₀ (some (distTo rgb c₀)) := by
    rw [findClosestBrickColor, hLC, List.headD_cons, findLoop_cons,
      if_pos (show distLtOpt (distTo rgb c₀) none from trivial)]
  rw [hstep, hLC]
  rcases findLoop_spec rgb rest c₀ (distTo rgb c₀) with ⟨heq, hall⟩ | ⟨l₁, l₂, hdec, hless, hstrict, hle⟩
  · rw [heq]
    have hdecomp : c₀ :: rest = [] ++ c₀ :: rest := rfl
    exact ⟨min_of_decomp rgb hdecomp (by simp) hall, [], rest, rfl, by simp, hall⟩
  · have hdecomp : c₀ :: rest =
        (c₀ :: l₁) ++ findLoop rgb rest c₀ (some (distTo rgb c₀)) :: l₂ := by
      rw [List.cons_append]; exact congrArg (List.cons c₀) hdec
    have hstrict' : ∀ c ∈ c₀ :: l₁,
        distTo rgb (findLoop rgb rest c₀ (some (distTo rgb c₀))) < distTo rgb c := by
      intro x hx
      rcases List.mem_cons.1 hx with hx | hx
      · exact hx ▸ hless
      · exact hstrict x hx
    exact ⟨min_of_decomp rgb hdecomp hstrict' hle, c₀ :: l₁, l₂, hdecomp, hstrict', hle⟩

/-! ### Board partition and grid resolution (server `registerRoutes`) -/

/-- Board grid position `{ row, col }`. -/
structure Position where
  row : Nat
  col : Nat
deriving DecidableEq

/-- One board: `{ id, position, pixels }` with `pixels` a 32×32 grid of hex strings. -/
structure BoardData where
  id : String
  position : Position
  pixels : List (List String)
deriving DecidableEq

/-- Constant `boardSize = 32`: each board is 32×32 tiles. -/
def boardSize : Nat := 32

/-- Board label: `String.fromCharCode(65 + boardCol) + (boardRow + 1)`. -/
def boardIdOf (boardCol boardRow : Nat) : String :=
  String.mk [Char.ofNat (65 + boardCol)] ++ toString (boardRow + 1)

/-- Cell `(y, x)` of the board at `(boardRow, boardCol)`: the source raster
pixel when the global coordinate is in bounds (width read from row 0, as in
the source's `pixelatedData[0].length`), the default white fill otherwise. -/
def boardPixelAt (pixelatedData : List (List String)) (boardRow boardCol y x : Nat) : String :=
  let globalY := boardRow * boardSize + y
  let globalX := boardCol * boardSize + x
  if globalY < pixelatedData.length ∧ globalX < (pixelatedData.headD []).length then
    (pixelatedData.getD globalY []).getD globalX "#FFFFFF"
  else "#FFFFFF"

/-- The `boardPixels` double loop (`y` outer, `x` inner). -/
def extractBoardPixels (pixelatedData : List (List String)) (boardRow boardCol : Nat) :
    List (List String) :=
  (List.range boardSize).map fun y => (List.range boardSize).map fun x =>
    boardPixelAt pixelatedData boardRow boardCol y x

/-- The board partition loop: `boardRow` outer over `gridRows`, `boardCol`
inner over `gridCols`, pushing boards in that order. -/
def buildBoards (pixelatedData : List (List String)) (gridRows gridCols : Nat) :
    List BoardData :=
  (List.range gridRows).bind fun boardRow => (List.range gridCols).map fun boardCol =>
    { id := boardIdOf boardCol boardRow,
      position := ⟨boardRow, boardCol⟩,
      pixels := extractBoardPixels pixelatedData boardRow boardCol }

/-- Read of `pixels[y]?.[x] || '#FFFFFF'` on a board grid: the default covers
the missing-row/missing-cell case (in JS the `||` would also replace an empty
string, a value no reachable grid contains). -/
def getPix (pixels : List (List String)) (y x : Nat) : String :=
  (pixels.getD y []).getD x "#FFFFFF"

lemma getD_range_map {α : Type} (f : Nat → α) (n i : Nat) (h : i < n) (d : α) :
    ((List.range n).map f).getD i d = f i := by
  rw [List.getD_eq_getD_get?, List.get?_map, List.get?_range h]
  rfl

lemma mem_buildBoards {data : List (List String)} {gridRows gridCols : Nat} {b : BoardData}
    (hb : b ∈ buildBoards data gridRows gridCols) :
    ∃ br bc, br < gridRows ∧ bc < gridCols ∧
      b = { id := boardIdOf bc br, position := ⟨br, bc⟩,
            pixels := extractBoardPixels data br bc } := by
  rcases List.mem_bind.1 hb with ⟨br, hbr, hmem⟩
  rcases List.mem_map.1 hmem with ⟨bc, hbc, hbeq⟩
  exact ⟨br, bc, List.mem_range.1 hbr, List.mem_range.1 hbc, hbeq.symm⟩

/-- C3: every board cell `(x, y)` equals the quantized raster pixel at
`(position.row*32 + y, position.col*32 + x)` when that coordinate is within
the raster's extent, and the default white fill `"#FFFFFF"` otherwise. -/
theorem C3_partition_cells (data : List (List String)) (W gridRows gridCols : Nat)
    (hW : ∀ row ∈ data, row.length = W)
    (b : BoardData) (hb : b ∈ buildBoards data gridRows gridCols)
    (y x : Nat) (hy : y < 32) (hx : x < 32) :
    getPix b.pixels y x =
      if b.position.row * 32 + y < data.length ∧ b.position.col * 32 + x < W then
        (data.getD (b.position.row * 32 + y) []).getD (b.position.col * 32 + x) "#FFFFFF"
      else "#FFFFFF" := by
  rcases mem_buildBoards hb with ⟨br, bc, _, _, hbeq⟩
  subst hbeq
  simp only
  rw [getPix]
  rw [show (extractBoardPixels data br bc).getD y [] =
      (List.range boardSize).map (fun x => boardPixelAt data br bc y x) from
    getD_range_map _ boardSize y hy []]
  rw [getD_range_map _ boardSize x hx "#FFFFFF"]
  rw [boardPixelAt]
  have hcond : (br * boardSize + y < data.length ∧ bc * boardSize + x < (data.headD []).length)
      ↔ (br * 32 + y < data.length ∧ bc * 32 + x < W) := by
    cases data with
    | nil => simp [boardSize]
    | cons row rest =>
      have hrow : row.length = W := hW row (List.mem_cons_self row rest)
      simp [boardSize, hrow]
  rw [boardSize] at hcond ⊢
  by_cases h : br * 32 + y < data.length ∧ bc * 32 + x < W
  · rw [if_pos (hcond.2 h), if_pos h]
  · rw [if_neg (fun hc => h (hcond.1 hc)), if_neg h]

/-- C7: every produced board's id is the column letter (0 ↦ `A`, 1 ↦ `B`, …)
followed by `boardRow + 1`; in particular a 2×2 grid is labeled
`A1`, `B1`, `A2`, `B2` in production order. -/
theorem C7_board_labels (data : List (List String)) (gridRows gridCols : Nat) :
    (∀ b ∈ buildBoards data gridRows gridCols,
      b.id = boardIdOf b.position.col b.position.row) ∧
    (buildBoards data 2 2).map BoardData.id = ["A1", "B1", "A2", "B2"] := by
  constructor
  · intro b hb
    rcases mem_buildBoards hb with ⟨br, bc, _, _, hbeq⟩
    subst hbeq
    rfl
  · rfl

/-- Witness: the single board of a 1×1 partition of an empty raster satisfies
the C3 cell equation at (0, 0). -/
theorem C3_partition_cells_witness :
    ((∀ row ∈ ([] : List (List String)), row.length = 0) ∧
      (⟨"A1", ⟨0, 0⟩, extractBoardPixels [] 0 0⟩ : BoardData) ∈ buildBoards [] 1 1 ∧
      0 < 32) ∧
    getPix (⟨"A1", ⟨0, 0⟩, extractBoardPixels [] 0 0⟩ : BoardData).pixels 0 0 =
      if (⟨"A1", ⟨0, 0⟩, extractBoardPixels [] 0 0⟩ : BoardData).position.row * 32 + 0 <
          ([] : List (List String)).length ∧
          (⟨"A1", ⟨0, 0⟩, extractBoardPixels [] 0 0⟩ : BoardData).position.col * 32 + 0 < 0 then
        (([] : List (List String)).getD
            ((⟨"A1", ⟨0, 0⟩, extractBoardPixels [] 0 0⟩ : BoardData).position.row * 32 + 0)
            []).getD
          ((⟨"A1", ⟨0, 0⟩, extractBoardPixels [] 0 0⟩ : BoardData).position.col * 32 + 0)
          "#FFFFFF"
      else "#FFFFFF" :=
  ⟨⟨by simp, by decide, by decide⟩,
    C3_partition_cells [] 0 1 1 (by simp) _ (by decide) 0 0 (by decide) (by decide)⟩

/-- Witness: the first board of that partition satisfies the C7 label equation. -/
theorem C7_board_labels_witness :
    (⟨"A1", ⟨0, 0⟩, extractBoardPixels [] 0 0⟩ : BoardData) ∈ buildBoards [] 1 1 ∧
    (⟨"A1", ⟨0, 0⟩, extractBoardPixels [] 0 0⟩ : BoardData).id = boardIdOf 0 0 :=
  ⟨by decide, (C7_board_labels [] 1 1).1 _ (by decide)⟩

/-- Integer ceiling of the square root, the value of
`Math.ceil(Math.sqrt(n))` on a natural number input. -/
def ceilSqrt (n : Nat) : Nat :=
  if Nat.sqrt n * Nat.sqrt n = n then Nat.sqrt n else Nat.sqrt n + 1

/-- Sanity check that `ceilSqrt` is the ceiling of the real square root. -/
theorem ceilSqrt_eq_ceil_real_sqrt (n : Nat) : ceilSqrt n = ⌈Real.sqrt n⌉₊ := by
  rw [ceilSqrt]
  by_cases h : Nat.sqrt n * Nat.sqrt n = n
  · rw [if_pos h]
    have : Real.sqrt n = Nat.sqrt n := by
      rw [show ((n : ℕ) : ℝ) = (Nat.sqrt n : ℝ) * (Nat.sqrt n : ℝ) by
        rw [← Nat.cast_mul, h]]
      exact Real.sqrt_mul_self (Nat.cast_nonneg _)
    rw [this, Nat.ceil_natCast]
  · rw [if_neg h]
    have hlt : Nat.sqrt n * Nat.sqrt n < n :=
      lt_of_le_of_ne (Nat.sqrt_le n) h
    have hub : n < (Nat.sqrt n + 1) * (Nat.sqrt n + 1) := Nat.lt_succ_sqrt n
    symm
    rw [Nat.ceil_eq_iff (Nat.succ_ne_zero _)]
    constructor
    · show ((Nat.sqrt n + 1 - 1 : ℕ) : ℝ) < Real.sqrt n
      rw [Nat.add_sub_cancel]
      rw [show ((Nat.sqrt n : ℕ) : ℝ) = Real.sqrt ((Nat.sqrt n : ℝ) * (Nat.sqrt n : ℝ)) from
        (Real.sqrt_mul_self (Nat.cast_nonneg _)).symm]
      apply Real.sqrt_lt_sqrt (by positivity)
      rw [← Nat.cast_mul]
      exact_mod_cast hlt
    · have hs : Real.sqrt ((((Nat.sqrt n + 1) * (Nat.sqrt n + 1) : ℕ)) : ℝ)
          = ((Nat.sqrt n + 1 : ℕ) : ℝ) := by
        rw [Nat.cast_mul]
        exact Real.sqrt_mul_self (Nat.cast_nonneg _)
      rw [← hs]
      apply Real.sqrt_le_sqrt
      exact_mod_cast le_of_lt hub

/-- The `switch (project.boardLayout)` grid resolution: explicit cases for
`2x2`, `3x2`, `3x3`, `4x2`, and the default
`gridCols = gridRows = Math.ceil(Math.sqrt(project.boardCount))`. -/
def resolveGrid (boardLayout : String) (boardCount : Nat) : Nat × Nat :=
  if boardLayout = "2x2" then (2, 2)
  else if boardLayout = "3x2" then (3, 2)
  else if boardLayout = "3x3" then (3, 3)
  else if boardLayout = "4x2" then (4, 2)
  else (ceilSqrt boardCount, ceilSqrt boardCount)

/-- Counterexample to C8 as stated: the claimed preset set includes `1x1`
mapping to the explicit pair (1, 1), but the switch has no `1x1` case, so
layout `"1x1"` with `boardCount = 4` resolves through the fallback to (2, 2). -/
theorem C8_counterexample :
    resolveGrid "1x1" 4 = (2, 2) ∧ resolveGrid "1x1" 4 ≠ (1, 1) := by
  have h4 : Nat.sqrt 4 = 2 := by
    rw [show (4 : ℕ) = 2 ^ 2 from rfl, Nat.sqrt_eq']
  have hc : ceilSqrt 4 = 2 := by
    simp [ceilSqrt, h4]
  have hr : resolveGrid "1x1" 4 = (ceilSqrt 4, ceilSqrt 4) := by
    simp only [resolveGrid, if_neg (by decide : ¬("1x1" : String) = "2x2"),
      if_neg (by decide : ¬("1x1" : String) = "3x2"),
      if_neg (by decide : ¬("1x1" : String) = "3x3"),
      if_neg (by decide : ¬("1x1" : String) = "4x2")]
  rw [hr, hc]
  exact ⟨rfl, by decide⟩

/-- C8 amended: only `2x2`, `3x2`, `3x3`, `4x2` are explicit presets; every
other layout string (including `1x1`) falls back to
`cols = rows = ceil(sqrt(boardCount))`. -/
theorem C8_grid_presets (layout : String) (n : Nat) :
    resolveGrid "2x2" n = (2, 2) ∧ resolveGrid "3x2" n = (3, 2) ∧
    resolveGrid "3x3" n = (3, 3) ∧ resolveGrid "4x2" n = (4, 2) ∧
    (layout ≠ "2x2" → layout ≠ "3x2" → layout ≠ "3x3" → layout ≠ "4x2" →
      resolveGrid layout n = (ceilSqrt n, ceilSqrt n)) := by
  refine ⟨rfl, rfl, rfl, rfl, fun h1 h2 h3 h4 => ?_⟩
  simp only [resolveGrid, if_neg h1, if_neg h2, if_neg h3, if_neg h4]

/-- Witness: layout `"1x1"` is outside the preset set and resolves through
the fallback; with `boardCount = 1` that is (1, 1). -/
theorem C8_grid_presets_witness :
    (("1x1" : String) ≠ "2x2" ∧ ("1x1" : String) ≠ "3x2" ∧
      ("1x1" : String) ≠ "3x3" ∧ ("1x1" : String) ≠ "4x2") ∧
    resolveGrid "1x1" 1 = (ceilSqrt 1, ceilSqrt 1) :=
  ⟨⟨by decide, by decide, by decide, by decide⟩,
    (C8_grid_presets "1x1" 1).2.2.2.2 (by decide) (by decide) (by decide) (by decide)⟩

/-! ### Quantization loop and usage tally (server `registerRoutes`) -/

/-- Map key built by the quantization loop. -/
def usageKey (c : NamedColor) : String := c.name ++ "|" ++ c.hex

/-- One tally step `colorUsage.set(key, (colorUsage.get(key) || 0) + 1)`:
JS `Map.set` updates an existing key in place (insertion order preserved)
or appends a fresh key at the end. -/
def bumpUsage : List (String × Nat) → String → List (String × Nat)
  | [], key => [(key, 1)]
  | (k, c) :: rest, key =>
    if k = key then (k, c + 1) :: rest else (k, c) :: bumpUsage rest key

/-- The quantization double loop restricted to the usage tally. -/
noncomputable def usageOf (data : List (List RGB)) : List (String × Nat) :=
  data.foldl (fun u row => row.foldl (fun acc rgb =>
    bumpUsage acc (usageKey (findClosestBrickColor rgb))) u) []

/-- The quantization double loop restricted to the raster: each pixel replaced
by the hex of the nearest brick color. -/
noncomputable def pixelate (data : List (List RGB)) : List (List String) :=
  data.map fun row => row.map fun rgb => (findClosestBrickColor rgb).hex

/-- Client-facing `ColorUsage { name, hex, count }`. -/
structure ColorUsage where
  name : String
  hex : String
  count : Nat
deriving DecidableEq

/-- A `colorMap` entry: `key.split("|")` destructured to `[name, hex]`. -/
def mkColorUsage (key : String) (count : Nat) : ColorUsage :=
  let parts := key.splitOn "|"
  { name := parts.headD "", hex := parts.getD 1 "", count := count }

/-- Result shape `PixelationResult { pixelatedImageData, colorMap, boards, totalTiles }`. -/
structure PixelationResult where
  pixelatedImageData : String
  colorMap : List ColorUsage
  boards : List BoardData
  totalTiles : Nat
deriving DecidableEq

/-- The `/api/projects/:id/process` pixelation result: quantize, tally,
partition, `totalTiles = totalWidth * totalHeight`. The PNG re-encoding of
the raster (via `sharp`) is an external effect; `pixelatedImageData` carries
an opaque placeholder for the produced data URI. -/
noncomputable def processImage (data : List (List RGB)) (gridCols gridRows : Nat) :
    PixelationResult :=
  { pixelatedImageData := "data:image/png;base64,",
    colorMap := (usageOf data).map fun p => mkColorUsage p.1 p.2,
    boards := buildBoards (pixelate data) gridRows gridCols,
    totalTiles := (gridCols * boardSize) * (gridRows * boardSize) }

lemma bumpUsage_sum (u : List (String × Nat)) (key : String) :
    ((bumpUsage u key).map Prod.snd).sum = ((u.map Prod.snd).sum) + 1 := by
  induction u with
  | nil => rfl
  | cons p rest ih =>
    obtain ⟨k, c⟩ := p
    by_cases hk : k = key
    · simp only [bumpUsage, if_pos hk, List.map_cons, List.sum_cons]
      omega
    · simp only [bumpUsage, if_neg hk, List.map_cons, List.sum_cons, ih]
      omega

lemma usage_row_sum (row : List RGB) :
    ∀ u : List (String × Nat),
      ((row.foldl (fun acc rgb =>
          bumpUsage acc (usageKey (findClosestBrickColor rgb))) u).map Prod.snd).sum
        = (u.map Prod.snd).sum + row.length := by
  induction row with
  | nil => intro u; simp
  | cons rgb rest ih =>
    intro u
    rw [List.foldl_cons, ih, bumpUsage_sum, List.length_cons]
    omega

lemma usageOf_sum (data : List (List RGB)) :
    ((usageOf data).map Prod.snd).sum = (data.map List.length).sum := by
  rw [usageOf]
  suffices h : ∀ u : List (String × Nat),
      ((data.foldl (fun u row => row.foldl (fun acc rgb =>
          bumpUsage acc (usageKey (findClosestBrickColor rgb))) u) u).map Prod.snd).sum
        = (u.map Prod.snd).sum + (data.map List.length).sum by
    simpa using h []
  induction data with
  | nil => intro u; simp
  | cons row rest ih =>
    intro u
    rw [List.foldl_cons, ih, usage_row_sum, List.map_cons, List.sum_cons]
    omega

lemma sum_lengths_const {α : Type} (data : List (List α)) (W : Nat)
    (hW : ∀ row ∈ data, row.length = W) :
    (data.map List.length).sum = W * data.length := by
  induction data with
  | nil => simp
  | cons row rest ih =>
    rw [List.map_cons, List.sum_cons,
      ih (fun r hr => hW r (List.mem_cons_of_mem _ hr)),
      hW row (List.mem_cons_self _ _), List.length_cons]
    ring

/-- C4: for every processed raster the `colorMap` counts sum to
`width * height`, and `totalTiles = gridCols * gridRows * 32 * 32`. -/
theorem C4_usage_totals (data : List (List RGB)) (W : Nat)
    (hW : ∀ row ∈ data, row.length = W) (gridCols gridRows : Nat) :
    ((processImage data gridCols gridRows).colorMap.map ColorUsage.count).sum
        = W * data.length ∧
    (processImage data gridCols gridRows).totalTiles
        = gridCols * gridRows * 32 * 32 := by
  constructor
  · have hmap : (processImage data gridCols gridRows).colorMap.map ColorUsage.count
        = (usageOf data).map Prod.snd := by
      simp [processImage, mkColorUsage, List.map_map, Function.comp]
    rw [hmap, usageOf_sum, sum_lengths_const data W hW]
  · simp only [processImage, boardSize]
    ring

/-- Witness: a 1×1 raster of one black pixel on a 1×1 grid. -/
theorem C4_usage_totals_witness :
    (∀ row ∈ [[((0, 0, 0) : RGB)]], row.length = 1) ∧
    ((processImage [[((0, 0, 0) : RGB)]] 1 1).colorMap.map ColorUsage.count).sum
        = 1 * ([[((0, 0, 0) : RGB)]] : List (List RGB)).length ∧
    (processImage [[((0, 0, 0) : RGB)]] 1 1).totalTiles = 1 * 1 * 32 * 32 :=
  ⟨by simp,
    (C4_usage_totals [[((0, 0, 0) : RGB)]] 1 (by simp) 1 1).1,
    (C4_usage_totals [[((0, 0, 0) : RGB)]] 1 (by simp) 1 1).2⟩

/-! ### Pixel editor state machine (client `pixel-editor.tsx`) -/

/-- A recorded single-cell edit `{ boardId, x, y, oldColor, newColor }`. -/
structure PixelChange where
  boardId : String
  x : Nat
  y : Nat
  oldColor : String
  newColor : String
deriving DecidableEq

/-- Editor component state: the live result plus the undo/redo stacks and the
in-progress paint batch. Stacks grow at the end (`[...prev, batch]`) and pop
from the end (`slice(0, -1)`). Pan/zoom view state enters through the event
geometry instead and the `isDragging` pan flag is irrelevant to edits. -/
structure EditorState where
  editedResult : PixelationResult
  undoStack : List (List PixelChange)
  redoStack : List (List PixelChange)
  isPainting : Bool
  paintBatch : List PixelChange
deriving DecidableEq

/-- Pointer event client coordinates, idealized as rationals. -/
structure MouseEv where
  clientX : ℚ
  clientY : ℚ
deriving DecidableEq

/-- Canvas geometry at event time: bounding-rect origin, pan offset, zoom. -/
structure EditorView where
  rectLeft : ℚ
  rectTop : ℚ
  panX : ℚ
  panY : ℚ
  zoom : ℚ
deriving DecidableEq

/-- Constant `tileSize = 16`: base tile size before zoom. -/
def tileSize : ℚ := 16

/-- Replace `pixels[y][x]`. When row `y` is missing the source installs a
fresh `new Array(32).fill('#FFFFFF')` row first; `List.set` is a no-op beyond
the list length, matching the unreachability of that branch on 32-row boards. -/
def setPixRows (pixels : List (List String)) (y x : Nat) (c : String) :
    List (List String) :=
  pixels.set y (((pixels.get? y).getD (List.replicate 32 "#FFFFFF")).set x c)

/-- Mutate the first board satisfying the predicate (the source's
`boards.find(...)` followed by in-place mutation of the found board). -/
def updateFirst (p : BoardData → Bool) (f : BoardData → BoardData) :
    List BoardData → List BoardData
  | [] => []
  | b :: rest => if p b then f b :: rest else b :: updateFirst p f rest

/-- Write one cell of the (first) board with the given id. -/
def setPixInBoards (boards : List BoardData) (bid : String) (y x : Nat) (c : String) :
    List BoardData :=
  updateFirst (fun b => b.id == bid)
    (fun b => { b with pixels := setPixRows b.pixels y x c }) boards

/-- Read one cell of the first board with the given id (white when the board
is missing, matching the guarded `?.[] || '#FFFFFF'` access). -/
def getPixB (boards : List BoardData) (bid : String) (y x : Nat) : String :=
  ((boards.find? (fun b => b.id == bid)).map fun b => getPix b.pixels y x).getD "#FFFFFF"

/-- Hit test of `paintPixel`: the first board whose square
`[col*32*tileSize, col*32*tileSize + 32*tileSize) × [row*…, …)` contains the
canvas point. -/
def hitBoard (boards : List BoardData) (x y : ℚ) : Option BoardData :=
  boards.find? fun b =>
    let boardStartX : ℚ := (b.position.col : ℚ) * 32 * tileSize
    let boardStartY : ℚ := (b.position.row : ℚ) * 32 * tileSize
    decide (boardStartX ≤ x ∧ x < boardStartX + 32 * tileSize ∧
            boardStartY ≤ y ∧ y < boardStartY + 32 * tileSize)

/-- Coordinate resolution of `paintPixel`: un-pan/un-zoom the client point,
hit-test the boards, floor-divide into cell indices, guard `0 ≤ · < 32`.
Returns `(board, pixelY, pixelX)`. -/
def resolveCell (boards : List BoardData) (view : EditorView) (ev : MouseEv) :
    Option (BoardData × Nat × Nat) :=
  let x : ℚ := (ev.clientX - view.rectLeft - view.panX) / view.zoom
  let y : ℚ := (ev.clientY - view.rectTop - view.panY) / view.zoom
  match hitBoard boards x y with
  | none => none
  | some board =>
    let boardStartX : ℚ := (board.position.col : ℚ) * 32 * tileSize
    let boardStartY : ℚ := (board.position.row : ℚ) * 32 * tileSize
    let pixelX : ℤ := ⌊(x - boardStartX) / tileSize⌋
    let pixelY : ℤ := ⌊(y - boardStartY) / tileSize⌋
    if 0 ≤ pixelX ∧ pixelX < 32 ∧ 0 ≤ pixelY ∧ pixelY < 32 then
      some (board, pixelY.toNat, pixelX.toNat)
    else none

/-- Handler `paintPixel`: resolve the pointer; on a hit whose current color differs
from the selected color, append the change to the paint batch and write the
cell (`if (!selectedColor) return` guards the empty selection). -/
def paintPixel (sel : String) (view : EditorView) (ev : MouseEv) (st : EditorState) :
    EditorState :=
  if sel = "" then st
  else
    match resolveCell st.editedResult.boards view ev with
    | none => st
    | some (board, py, px) =>
      let oldColor := getPix board.pixels py px
      if oldColor ≠ sel then
        { st with
          paintBatch := st.paintBatch ++ [⟨board.id, px, py, oldColor, sel⟩],
          editedResult := { st.editedResult with
            boards := setPixInBoards st.editedResult.boards board.id py px sel } }
      else st

/-- The `handleMouseDown` paint branch: enter painting with a fresh empty batch. -/
def beginPaint (st : EditorState) : EditorState :=
  { st with isPainting := true, paintBatch := [] }

/-- Handler `handleMouseUp`: when painting, push a non-empty batch onto the undo
stack and clear the redo stack; always leave painting and drop the batch. -/
def handleMouseUp (st : EditorState) : EditorState :=
  if st.isPainting then
    if st.paintBatch ≠ [] then
      { st with undoStack := st.undoStack ++ [st.paintBatch],
                redoStack := [],
                isPainting := false,
                paintBatch := [] }
    else { st with isPainting := false, paintBatch := [] }
  else st

/-- Revert every change of a batch in order (`lastBatch.forEach` writing
`change.oldColor` into the board found by id). -/
def undoApply (boards : List BoardData) (batch : List PixelChange) : List BoardData :=
  batch.foldl (fun bs ch => setPixInBoards bs ch.boardId ch.y ch.x ch.oldColor) boards

/-- Reapply every change of a batch in order (writing `change.newColor`). -/
def redoApply (boards : List BoardData) (batch : List PixelChange) : List BoardData :=
  batch.foldl (fun bs ch => setPixInBoards bs ch.boardId ch.y ch.x ch.newColor) boards

/-- Handler `handleUndo`: pop the top (last) batch, revert it, push it onto redo. -/
def handleUndo (st : EditorState) : EditorState :=
  match st.undoStack.getLast? with
  | none => st
  | some lastBatch =>
    { st with
      undoStack := st.undoStack.dropLast,
      redoStack := st.redoStack ++ [lastBatch],
      editedResult := { st.editedResult with
        boards := undoApply st.editedResult.boards lastBatch } }

/-- Handler `handleRedo`: pop the top (last) redo batch, reapply it, push onto undo. -/
def handleRedo (st : EditorState) : EditorState :=
  match st.redoStack.getLast? with
  | none => st
  | some nextBatch =>
    { st with
      undoStack := st.undoStack ++ [nextBatch],
      redoStack := st.redoStack.dropLast,
      editedResult := { st.editedResult with
        boards := redoApply st.editedResult.boards nextBatch } }

/-- One continuous paint gesture: a fixed selected color and the drag's
pointer events, each with the view geometry at event time. -/
structure Gesture where
  sel : String
  events : List (EditorView × MouseEv)

/-- Apply the pointer events of a gesture in order. -/
def runPaintMoves (sel : String) (evs : List (EditorView × MouseEv)) (st : EditorState) :
    EditorState :=
  evs.foldl (fun s e => paintPixel sel e.1 e.2 s) st

/-- One full gesture: mouse down (fresh batch; the first paint is the head
event), drag moves, mouse up. -/
def runGesture (g : Gesture) (st : EditorState) : EditorState :=
  handleMouseUp (runPaintMoves g.sel g.events (beginPaint st))

/-- A sequence of committed gestures. -/
def runGestures (gs : List Gesture) (st : EditorState) : EditorState :=
  gs.foldl (fun s g => runGesture g s) st

/-- Iterated `handleUndo`. -/
def undoN : Nat → EditorState → EditorState
  | 0, st => st
  | n + 1, st => undoN n (handleUndo st)

/-- Iterated `handleRedo`. -/
def redoN : Nat → EditorState → EditorState
  | 0, st => st
  | n + 1, st => redoN n (handleRedo st)

/-- Well-formed board lists: unique ids and full 32×32 pixel grids (the shape
`buildBoards` produces). -/
def WFBoards (bs : List BoardData) : Prop :=
  (bs.map BoardData.id).Nodup ∧
  ∀ b ∈ bs, b.pixels.length = 32 ∧ ∀ row ∈ b.pixels, row.length = 32

lemma paintPixel_frame (sel : String) (view : EditorView) (ev : MouseEv)
    (st : EditorState) :
    (paintPixel sel view ev st).editedResult.colorMap = st.editedResult.colorMap ∧
    (paintPixel sel view ev st).editedResult.totalTiles = st.editedResult.totalTiles ∧
    (paintPixel sel view ev st).editedResult.pixelatedImageData
      = st.editedResult.pixelatedImageData ∧
    (paintPixel sel view ev st).undoStack = st.undoStack ∧
    (paintPixel sel view ev st).redoStack = st.redoStack ∧
    (paintPixel sel view ev st).isPainting = st.isPainting := by
  rw [paintPixel]
  split
  · exact ⟨rfl, rfl, rfl, rfl, rfl, rfl⟩
  · split
    · exact ⟨rfl, rfl, rfl, rfl, rfl, rfl⟩
    · dsimp only
      split
      · exact ⟨rfl, rfl, rfl, rfl, rfl, rfl⟩
      · exact ⟨rfl, rfl, rfl, rfl, rfl, rfl⟩

lemma handleUndo_frame (st : EditorState) :
    (handleUndo st).editedResult.colorMap = st.editedResult.colorMap ∧
    (handleUndo st).editedResult.totalTiles = st.editedResult.totalTiles ∧
    (handleUndo st).editedResult.pixelatedImageData = st.editedResult.pixelatedImageData ∧
    (handleUndo st).isPainting = st.isPainting ∧
    (handleUndo st).paintBatch = st.paintBatch := by
  rw [handleUndo]
  split
  · exact ⟨rfl, rfl, rfl, rfl, rfl⟩
  · exact ⟨rfl, rfl, rfl, rfl, rfl⟩

lemma handleRedo_frame (st : EditorState) :
    (handleRedo st).editedResult.colorMap = st.editedResult.colorMap ∧
    (handleRedo st).editedResult.totalTiles = st.editedResult.totalTiles ∧
    (handleRedo st).editedResult.pixelatedImageData = st.editedResult.pixelatedImageData ∧
    (handleRedo st).isPainting = st.isPainting ∧
    (handleRedo st).paintBatch = st.paintBatch := by
  rw [handleRedo]
  split
  · exact ⟨rfl, rfl, rfl, rfl, rfl⟩
  · exact ⟨rfl, rfl, rfl, rfl, rfl⟩

/-- C9: a paint event whose coordinates resolve to no board cell is a silent
no-op: the entire editor state (board pixels, paint batch, both stacks) is
returned unchanged. -/
theorem C9_bounds_miss_noop (st : EditorState) (sel : String) (view : EditorView)
    (ev : MouseEv) (h : resolveCell st.editedResult.boards view ev = none) :
    paintPixel sel view ev st = st := by
  by_cases hsel : sel = ""
  · simp [paintPixel, hsel]
  · simp [paintPixel, hsel, h]

/-- Witness: a pointer event over an empty board list resolves to no cell and
painting is an exact no-op. -/
theorem C9_bounds_miss_noop_witness :
    resolveCell (⟨⟨"", [], [], 0⟩, [], [], false, []⟩ :
        EditorState).editedResult.boards ⟨0, 0, 0, 0, 1⟩ ⟨-1, -1⟩ = none ∧
    paintPixel "#000000" ⟨0, 0, 0, 0, 1⟩ ⟨-1, -1⟩
        (⟨⟨"", [], [], 0⟩, [], [], false, []⟩ : EditorState)
      = (⟨⟨"", [], [], 0⟩, [], [], false, []⟩ : EditorState) :=
  ⟨rfl, C9_bounds_miss_noop _ "#000000" _ _ rfl⟩

/-- C6: ending a paint gesture with a non-empty batch pushes exactly that one
batch onto the undo stack and clears the redo stack; and no single action —
paint commit, undo, or redo — ever grows both stacks (the commit never grows
redo, undo never grows undo, redo never grows redo). -/
theorem C6_commit_discipline (st : EditorState)
    (hp : st.isPainting = true) (hb : st.paintBatch ≠ []) :
    ((handleMouseUp st).undoStack = st.undoStack ++ [st.paintBatch] ∧
     (handleMouseUp st).redoStack = []) ∧
    (∀ s : EditorState, (handleMouseUp s).redoStack.length ≤ s.redoStack.length) ∧
    (∀ s : EditorState, (handleUndo s).undoStack.length ≤ s.undoStack.length) ∧
    (∀ s : EditorState, (handleRedo s).redoStack.length ≤ s.redoStack.length) := by
  refine ⟨?_, ?_, ?_, ?_⟩
  · rw [handleMouseUp, if_pos hp, if_pos hb]
    exact ⟨rfl, rfl⟩
  · intro s
    rw [handleMouseUp]
    split
    · split
      · exact Nat.zero_le _
      · exact le_refl _
    · exact le_refl _
  · intro s
    rw [handleUndo]
    split
    · exact le_refl _
    · show (s.undoStack.dropLast).length ≤ s.undoStack.length
      rw [List.length_dropLast]
      omega
  · intro s
    rw [handleRedo]
    split
    · exact le_refl _
    · show (s.redoStack.dropLast).length ≤ s.redoStack.length
      rw [List.length_dropLast]
      omega

/-- Witness: committing a one-change batch from a painting state. -/
theorem C6_commit_discipline_witness :
    ((⟨⟨"", [], [], 0⟩, [], [], true, [⟨"A1", 0, 0, "#000000", "#FFFFFF"⟩]⟩ :
        EditorState).isPainting = true ∧
      (⟨⟨"", [], [], 0⟩, [], [], true, [⟨"A1", 0, 0, "#000000", "#FFFFFF"⟩]⟩ :
        EditorState).paintBatch ≠ []) ∧
    ((handleMouseUp (⟨⟨"", [], [], 0⟩, [], [], true,
          [⟨"A1", 0, 0, "#000000", "#FFFFFF"⟩]⟩ : EditorState)).undoStack
        = (⟨⟨"", [], [], 0⟩, [], [], true, [⟨"A1", 0, 0, "#000000", "#FFFFFF"⟩]⟩ :
            EditorState).undoStack ++
          [(⟨⟨"", [], [], 0⟩, [], [], true, [⟨"A1", 0, 0, "#000000", "#FFFFFF"⟩]⟩ :
            EditorState).paintBatch] ∧
      (handleMouseUp (⟨⟨"", [], [], 0⟩, [], [], true,
          [⟨"A1", 0, 0, "#000000", "#FFFFFF"⟩]⟩ : EditorState)).redoStack = []) :=
  ⟨⟨rfl, by decide⟩,
    (C6_commit_discipline _ rfl (by decide)).1⟩

/-! ### Pixel get/set algebra -/

/-- The `(boardId, y, x)` cell a change touches. -/
def cellOf (ch : PixelChange) : String × Nat × Nat := (ch.boardId, ch.y, ch.x)

lemma list_set_getD_self {α : Type} (l : List α) (n : Nat) (d : α) :
    l.set n (l.getD n d) = l := by
  induction l generalizing n with
  | nil => rfl
  | cons a rest ih =>
    cases n with
    | zero => rfl
    | succ n =>
      show a :: rest.set n (rest.getD n d) = a :: rest
      rw [ih]

lemma setPixRows_of_length_le (px : List (List String)) (y x : Nat) (c : String)
    (h : px.length ≤ y) : setPixRows px y x c = px := by
  rw [setPixRows, List.set_eq_of_length_le h]

lemma getPix_setPixRows_same (px : List (List String)) (y x : Nat) (c : String)
    (hy : y < px.length) (hrow : ∀ row ∈ px, x < row.length) :
    getPix (setPixRows px y x c) y x = c := by
  have hg := List.get?_eq_get hy
  have hmem : px.get ⟨y, hy⟩ ∈ px := List.get_mem px y hy
  simp only [getPix, setPixRows, List.getD_eq_getD_get?, hg, Option.getD_some]
  rw [List.get?_set_eq_of_lt _ hy, Option.getD_some,
    List.get?_set_eq_of_lt _ (hrow _ hmem), Option.getD_some]

lemma getPix_setPixRows_ne (px : List (List String)) (y x : Nat) (c : String)
    (y' x' : Nat) (h : (y', x') ≠ (y, x)) :
    getPix (setPixRows px y x c) y' x' = getPix px y' x' := by
  by_cases hy : y' = y
  · subst hy
    have hx : x ≠ x' := fun he => h (by rw [he])
    by_cases hylen : y' < px.length
    · have hg := List.get?_eq_get hylen
      simp only [getPix, setPixRows, List.getD_eq_getD_get?, hg, Option.getD_some]
      rw [List.get?_set_eq_of_lt _ hylen, Option.getD_some, List.get?_set_ne _ _ hx]
    · rw [setPixRows_of_length_le _ _ _ _ (Nat.le_of_not_lt hylen)]
  · simp only [getPix, setPixRows, List.getD_eq_getD_get?]
    rw [List.get?_set_ne _ _ (fun he => hy he.symm)]

lemma setPixRows_get_self (px : List (List String)) (y x : Nat) :
    setPixRows px y x (getPix px y x) = px := by
  by_cases hylen : y < px.length
  · have hg := List.get?_eq_get hylen
    have hrow : px.getD y [] = px.get ⟨y, hylen⟩ := by
      rw [List.getD_eq_getD_get?, hg, Option.getD_some]
    rw [setPixRows, getPix, hg, Option.getD_some, hrow, list_set_getD_self, ← hrow,
      list_set_getD_self]
  · exact setPixRows_of_length_le _ _ _ _ (Nat.le_of_not_lt hylen)

lemma setPixRows_setPixRows_same (px : List (List String)) (y x : Nat) (c₁ c₂ : String) :
    setPixRows (setPixRows px y x c₁) y x c₂ = setPixRows px y x c₂ := by
  by_cases hylen : y < px.length
  · have hg := List.get?_eq_get hylen
    rw [setPixRows, setPixRows, setPixRows, hg, Option.getD_some,
      List.get?_set_eq_of_lt _ hylen, Option.getD_some, List.set_set, List.set_set]
  · have hle := Nat.le_of_not_lt hylen
    rw [setPixRows_of_length_le _ _ _ _ hle, setPixRows_of_length_le _ _ _ _ hle]

lemma setPixRows_comm (px : List (List String)) (y₁ x₁ y₂ x₂ : Nat) (c₁ c₂ : String)
    (h : (y₁, x₁) ≠ (y₂, x₂)) :
    setPixRows (setPixRows px y₁ x₁ c₁) y₂ x₂ c₂
      = setPixRows (setPixRows px y₂ x₂ c₂) y₁ x₁ c₁ := by
  by_cases hy : y₁ = y₂
  · subst hy
    have hx : x₁ ≠ x₂ := fun he => h (by rw [he])
    by_cases hylen : y₁ < px.length
    · have hg := List.get?_eq_get hylen
      rw [setPixRows, setPixRows, setPixRows, setPixRows, hg, Option.getD_some,
        List.get?_set_eq_of_lt _ hylen, Option.getD_some,
        List.get?_set_eq_of_lt _ hylen, Option.getD_some,
        List.set_set, List.set_set, List.set_comm _ _ _ hx]
    · have hle := Nat.le_of_not_lt hylen
      rw [setPixRows_of_length_le _ _ _ _ hle, setPixRows_of_length_le _ _ _ _ hle,
        setPixRows_of_length_le _ _ _ _ hle]
  · rw [setPixRows, setPixRows, setPixRows, setPixRows,
      List.get?_set_ne _ _ hy, List.get?_set_ne _ _ (fun he => hy he.symm),
      List.set_comm _ _ _ hy]

lemma setPixInBoards_cons (b : BoardData) (rest : List BoardData) (bid : String)
    (y x : Nat) (c : String) :
    setPixInBoards (b :: rest) bid y x c =
      if b.id == bid then { b with pixels := setPixRows b.pixels y x c } :: rest
      else b :: setPixInBoards rest bid y x c := rfl

lemma getPixB_cons (b : BoardData) (rest : List BoardData) (bid : String) (y x : Nat) :
    getPixB (b :: rest) bid y x =
      if b.id == bid then getPix b.pixels y x else getPixB rest bid y x := by
  by_cases hp : (b.id == bid) = true
  · have hfind : List.find? (fun x => x.id == bid) (b :: rest) = some b :=
      List.find?_cons_of_pos _ hp
    rw [getPixB, hfind, if_pos hp]
    simp only [Option.map_some', Option.getD_some]
  · have hfind : List.find? (fun x => x.id == bid) (b :: rest)
        = List.find? (fun x => x.id == bid) rest :=
      List.find?_cons_of_neg _ hp
    rw [getPixB, hfind, if_neg hp, getPixB]

lemma updateFirst_map_id (p : BoardData → Bool) (f : BoardData → BoardData)
    (hf : ∀ b, (f b).id = b.id) :
    ∀ bs : List BoardData, (updateFirst p f bs).map BoardData.id = bs.map BoardData.id
  | [] => rfl
  | b :: rest => by
    by_cases hp : p b = true
    · rw [updateFirst, if_pos hp, List.map_cons, List.map_cons, hf]
    · rw [updateFirst, if_neg hp, List.map_cons, List.map_cons,
        updateFirst_map_id p f hf rest]

lemma setPixInBoards_map_id (bs : List BoardData) (bid : String) (y x : Nat) (c : String) :
    (setPixInBoards bs bid y x c).map BoardData.id = bs.map BoardData.id :=
  updateFirst_map_id (fun b => b.id == bid)
    (fun b => { b with pixels := setPixRows b.pixels y x c }) (fun _ => rfl) bs

lemma find?_updateFirst_self (p : BoardData → Bool) (f : BoardData → BoardData)
    (hpf : ∀ b, p (f b) = p b) :
    ∀ bs : List BoardData, (updateFirst p f bs).find? p = (bs.find? p).map f
  | [] => rfl
  | b :: rest => by
    by_cases hp : p b = true
    · rw [updateFirst, if_pos hp, List.find?_cons_of_pos _ (by rw [hpf]; exact hp),
        List.find?_cons_of_pos _ hp, Option.map_some']
    · rw [updateFirst, if_neg hp, List.find?_cons_of_neg _ hp,
        List.find?_cons_of_neg _ hp, find?_updateFirst_self p f hpf rest]

lemma find?_updateFirst_other (p q : BoardData → Bool) (f : BoardData → BoardData)
    (hqf : ∀ b, q (f b) = q b) (hpq : ∀ b, p b = true → q b = false) :
    ∀ bs : List BoardData, (updateFirst p f bs).find? q = bs.find? q
  | [] => rfl
  | b :: rest => by
    by_cases hp : p b = true
    · have hq : q b = false := hpq b hp
      rw [updateFirst, if_pos hp,
        List.find?_cons_of_neg _ (by rw [hqf, hq]; exact Bool.false_ne_true),
        List.find?_cons_of_neg _ (by rw [hq]; exact Bool.false_ne_true)]
    · by_cases hq : q b = true
      · rw [updateFirst, if_neg hp, List.find?_cons_of_pos _ hq,
          List.find?_cons_of_pos _ hq]
      · rw [updateFirst, if_neg hp, List.find?_cons_of_neg _ hq,
          List.find?_cons_of_neg _ hq, find?_updateFirst_other p q f hqf hpq rest]

lemma getPixB_setPixInBoards_ne_id (bs : List BoardData) {bid bid' : String}
    (hne : bid' ≠ bid) (y x : Nat) (c : String) (y' x' : Nat) :
    getPixB (setPixInBoards bs bid y x c) bid' y' x' = getPixB bs bid' y' x' := by
  rw [getPixB, getPixB, setPixInBoards,
    find?_updateFirst_other (fun b => b.id == bid) (fun b => b.id == bid')
      (fun b => { b with pixels := setPixRows b.pixels y x c })
      (fun _ => rfl) ?_ bs]
  intro b hb
  have hbid : b.id = bid := by simpa using hb
  show (b.id == bid') = false
  rw [hbid]
  exact beq_eq_false_iff_ne.2 fun heq => hne heq.symm

lemma getPixB_setPixInBoards_same_ne_cell (bs : List BoardData) (bid : String)
    {y x y' x' : Nat} (h : (y', x') ≠ (y, x)) (c : String) :
    getPixB (setPixInBoards bs bid y x c) bid y' x' = getPixB bs bid y' x' := by
  rw [getPixB, getPixB, setPixInBoards,
    find?_updateFirst_self (fun b => b.id == bid)
      (fun b => { b with pixels := setPixRows b.pixels y x c }) (fun _ => rfl) bs]
  cases hf : bs.find? (fun b => b.id == bid) with
  | none => rfl
  | some b =>
    simp only [Option.map_some', Option.getD_some]
    exact getPix_setPixRows_ne _ _ _ _ _ _ h

lemma getPixB_setPixInBoards_same (bs : List BoardData) (bid : String) {b : BoardData}
    (hf : bs.find? (fun x => x.id == bid) = some b)
    {y x : Nat} (hy : y < b.pixels.length) (hrow : ∀ row ∈ b.pixels, x < row.length)
    (c : String) :
    getPixB (setPixInBoards bs bid y x c) bid y x = c := by
  rw [getPixB, setPixInBoards,
    find?_updateFirst_self (fun x => x.id == bid)
      (fun b => { b with pixels := setPixRows b.pixels y x c }) (fun _ => rfl) bs, hf]
  simp only [Option.map_some', Option.getD_some]
  exact getPix_setPixRows_same _ _ _ _ hy hrow

lemma setPixInBoards_get_self (bid : String) (y x : Nat) :
    ∀ bs : List BoardData, setPixInBoards bs bid y x (getPixB bs bid y x) = bs
  | [] => rfl
  | b :: rest => by
    by_cases hp : (b.id == bid) = true
    · have hval : getPixB (b :: rest) bid y x = getPix b.pixels y x := by
        rw [getPixB_cons, if_pos hp]
      rw [hval, setPixInBoards_cons, if_pos hp, setPixRows_get_self]
    · have hval : getPixB (b :: rest) bid y x = getPixB rest bid y x := by
        rw [getPixB_cons, if_neg hp]
      rw [hval, setPixInBoards_cons, if_neg hp, setPixInBoards_get_self bid y x rest]

lemma setPixInBoards_setPixInBoards_same (bid : String) (y x : Nat) (c₁ c₂ : String) :
    ∀ bs : List BoardData,
      setPixInBoards (setPixInBoards bs bid y x c₁) bid y x c₂
        = setPixInBoards bs bid y x c₂
  | [] => rfl
  | b :: rest => by
    by_cases hp : (b.id == bid) = true
    · rw [setPixInBoards_cons, if_pos hp, setPixInBoards_cons, if_pos hp,
        setPixInBoards_cons, if_pos hp, setPixRows_setPixRows_same]
    · rw [setPixInBoards_cons, if_neg hp, setPixInBoards_cons, if_neg hp,
        setPixInBoards_cons, if_neg hp,
        setPixInBoards_setPixInBoards_same bid y x c₁ c₂ rest]

lemma setPixInBoards_comm (bid₁ : String) (y₁ x₁ : Nat) (c₁ : String)
    (bid₂ : String) (y₂ x₂ : Nat) (c₂ : String)
    (h : (bid₁, y₁, x₁) ≠ (bid₂, y₂, x₂)) :
    ∀ bs : List BoardData,
      setPixInBoards (setPixInBoards bs bid₁ y₁ x₁ c₁) bid₂ y₂ x₂ c₂
        = setPixInBoards (setPixInBoards bs bid₂ y₂ x₂ c₂) bid₁ y₁ x₁ c₁
  | [] => rfl
  | b :: rest => by
    by_cases h1 : (b.id == bid₁) = true <;> by_cases h2 : (b.id == bid₂) = true
    · have hb1 : b.id = bid₁ := by simpa using h1
      have hb2 : b.id = bid₂ := by simpa using h2
      have hbid : bid₁ = bid₂ := hb1.symm.trans hb2
      have hcell : (y₁, x₁) ≠ (y₂, x₂) := by
        intro he
        exact h (by rw [hbid]; exact congrArg (Prod.mk bid₂) he)
      rw [setPixInBoards_cons, if_pos h1, setPixInBoards_cons, if_pos h2,
        setPixInBoards_cons, if_pos h2, setPixInBoards_cons, if_pos h1,
        setPixRows_comm _ _ _ _ _ _ _ hcell]
    · rw [setPixInBoards_cons, if_pos h1, setPixInBoards_cons, if_neg h2,
        setPixInBoards_cons, if_neg h2, setPixInBoards_cons, if_pos h1]
    · rw [setPixInBoards_cons, if_neg h1, setPixInBoards_cons, if_pos h2,
        setPixInBoards_cons, if_pos h2, setPixInBoards_cons, if_neg h1]
    · rw [setPixInBoards_cons, if_neg h1, setPixInBoards_cons, if_neg h2,
        setPixInBoards_cons, if_neg h2, setPixInBoards_cons, if_neg h1,
        setPixInBoards_comm bid₁ y₁ x₁ c₁ bid₂ y₂ x₂ c₂ h rest]

lemma mem_updateFirst {p : BoardData → Bool} {f : BoardData → BoardData} :
    ∀ {bs : List BoardData} {b' : BoardData},
      b' ∈ updateFirst p f bs → b' ∈ bs ∨ ∃ b ∈ bs, b' = f b
  | [], b', h => absurd h (List.not_mem_nil b')
  | b :: rest, b', h => by
    by_cases hp : p b = true
    · rw [updateFirst, if_pos hp] at h
      rcases List.mem_cons.1 h with he | hm
      · exact Or.inr ⟨b, List.mem_cons_self _ _, he⟩
      · exact Or.inl (List.mem_cons_of_mem _ hm)
    · rw [updateFirst, if_neg hp] at h
      rcases List.mem_cons.1 h with he | hm
      · exact Or.inl (he ▸ List.mem_cons_self _ _)
      · rcases mem_updateFirst hm with h1 | ⟨bb, hbb, he⟩
        · exact Or.inl (List.mem_cons_of_mem _ h1)
        · exact Or.inr ⟨bb, List.mem_cons_of_mem _ hbb, he⟩

lemma WFBoards_setPixInBoards {bs : List BoardData} (h : WFBoards bs)
    (bid : String) (y x : Nat) (c : String) :
    WFBoards (setPixInBoards bs bid y x c) := by
  obtain ⟨hnd, hdim⟩ := h
  constructor
  · rw [setPixInBoards_map_id]
    exact hnd
  · intro b' hb'
    rcases mem_updateFirst hb' with hm | ⟨b, hb, he⟩
    · exact hdim b' hm
    · subst he
      obtain ⟨hlen, hrows⟩ := hdim b hb
      refine ⟨?_, ?_⟩
      · show (setPixRows b.pixels y x c).length = 32
        rw [setPixRows, List.length_set]
        exact hlen
      · intro row hrow
        rcases List.mem_or_eq_of_mem_set hrow with hm2 | he2
        · exact hrows row hm2
        · subst he2
          rw [List.length_set]
          cases hg : b.pixels.get? y with
          | none => simp
          | some r =>
            rw [Option.getD_some]
            exact hrows r (List.get?_mem hg)

lemma find?_eq_some_of_mem_nodup :
    ∀ {bs : List BoardData} {b : BoardData},
      (bs.map BoardData.id).Nodup → b ∈ bs →
      bs.find? (fun x => x.id == b.id) = some b
  | [], b, _, hb => absurd hb (List.not_mem_nil b)
  | a :: rest, b, hnd, hb => by
    rcases List.mem_cons.1 hb with he | hm
    · subst he
      exact List.find?_cons_of_pos _ (by simp)
    · have hne : ¬ (a.id == b.id) = true := by
        intro he
        have heq : a.id = b.id := by simpa using he
        have hbmem : b.id ∈ rest.map BoardData.id := List.mem_map_of_mem _ hm
        exact (List.nodup_cons.1 hnd).1 (heq ▸ hbmem)
      have hfind : List.find? (fun x => x.id == b.id) (a :: rest)
          = List.find? (fun x => x.id == b.id) rest :=
        List.find?_cons_of_neg _ hne
      rw [hfind]
      exact find?_eq_some_of_mem_nodup (List.nodup_cons.1 hnd).2 hm

lemma getPixB_of_mem_nodup {bs : List BoardData} {b : BoardData}
    (hnd : (bs.map BoardData.id).Nodup) (hb : b ∈ bs) (y x : Nat) :
    getPixB bs b.id y x = getPix b.pixels y x := by
  rw [getPixB, find?_eq_some_of_mem_nodup hnd hb]
  simp only [Option.map_some', Option.getD_some]

lemma getPixB_set_ne_cell {bid' : String} {y' x' : Nat} {bid : String} {y x : Nat}
    (h : (bid', y', x') ≠ (bid, y, x)) (bs : List BoardData) (c : String) :
    getPixB (setPixInBoards bs bid y x c) bid' y' x' = getPixB bs bid' y' x' := by
  by_cases hid : bid' = bid
  · subst hid
    have hcell : (y', x') ≠ (y, x) := by
      intro he
      exact h (congrArg (Prod.mk bid') he)
    exact getPixB_setPixInBoards_same_ne_cell bs bid' hcell c
  · exact getPixB_setPixInBoards_ne_id bs hid y x c y' x'

lemma undoApply_cons (bs : List BoardData) (ch : PixelChange) (rest : List PixelChange) :
    undoApply bs (ch :: rest)
      = undoApply (setPixInBoards bs ch.boardId ch.y ch.x ch.oldColor) rest := rfl

lemma redoApply_cons (bs : List BoardData) (ch : PixelChange) (rest : List PixelChange) :
    redoApply bs (ch :: rest)
      = redoApply (setPixInBoards bs ch.boardId ch.y ch.x ch.newColor) rest := rfl

lemma undoApply_append (bs : List BoardData) (batch : List PixelChange) (ch : PixelChange) :
    undoApply bs (batch ++ [ch])
      = setPixInBoards (undoApply bs batch) ch.boardId ch.y ch.x ch.oldColor := by
  rw [undoApply, List.foldl_append]
  rfl

lemma redoApply_append (bs : List BoardData) (batch : List PixelChange) (ch : PixelChange) :
    redoApply bs (batch ++ [ch])
      = setPixInBoards (redoApply bs batch) ch.boardId ch.y ch.x ch.newColor := by
  rw [redoApply, List.foldl_append]
  rfl

lemma getPixB_redoApply_notin (batch : List PixelChange) :
    ∀ (bs : List BoardData) (bid : String) (y x : Nat),
      (bid, y, x) ∉ batch.map cellOf →
      getPixB (redoApply bs batch) bid y x = getPixB bs bid y x := by
  induction batch with
  | nil => intro bs bid y x _; rfl
  | cons ch rest ih =>
    intro bs bid y x hnot
    have hnr : (bid, y, x) ∉ rest.map cellOf := by
      intro hm
      exact hnot (by rw [List.map_cons]; exact List.mem_cons_of_mem _ hm)
    have hne : (bid, y, x) ≠ (ch.boardId, ch.y, ch.x) := by
      intro he
      exact hnot (by rw [List.map_cons]; exact he ▸ List.mem_cons_self _ _)
    rw [redoApply_cons, ih _ _ _ _ hnr, getPixB_set_ne_cell hne]

lemma undoApply_setPix_comm (batch : List PixelChange) :
    ∀ (bs : List BoardData) (bid : String) (y x : Nat) (c : String),
      (bid, y, x) ∉ batch.map cellOf →
      undoApply (setPixInBoards bs bid y x c) batch
        = setPixInBoards (undoApply bs batch) bid y x c := by
  induction batch with
  | nil => intro bs bid y x c _; rfl
  | cons ch rest ih =>
    intro bs bid y x c hnot
    have hnr : (bid, y, x) ∉ rest.map cellOf := by
      intro hm
      exact hnot (by rw [List.map_cons]; exact List.mem_cons_of_mem _ hm)
    have hne : (bid, y, x) ≠ (ch.boardId, ch.y, ch.x) := by
      intro he
      exact hnot (by rw [List.map_cons]; exact he ▸ List.mem_cons_self _ _)
    rw [undoApply_cons, undoApply_cons,
      setPixInBoards_comm _ _ _ _ _ _ _ _ hne bs, ih _ _ _ _ _ hnr]

/-! ### Paint gesture invariant -/

lemma editorState_ext {s t : EditorState}
    (h1 : s.editedResult = t.editedResult) (h2 : s.undoStack = t.undoStack)
    (h3 : s.redoStack = t.redoStack) (h4 : s.isPainting = t.isPainting)
    (h5 : s.paintBatch = t.paintBatch) : s = t := by
  cases s
  cases t
  simp only at h1 h2 h3 h4 h5
  subst h1
  subst h2
  subst h3
  subst h4
  subst h5
  rfl

lemma pixelationResult_ext {s t : PixelationResult}
    (h1 : s.pixelatedImageData = t.pixelatedImageData) (h2 : s.colorMap = t.colorMap)
    (h3 : s.boards = t.boards) (h4 : s.totalTiles = t.totalTiles) : s = t := by
  cases s
  cases t
  simp only at h1 h2 h3 h4
  subst h1
  subst h2
  subst h3
  subst h4
  rfl

lemma resolveCell_some {boards : List BoardData} {view : EditorView} {ev : MouseEv}
    {b : BoardData} {py px : Nat}
    (h : resolveCell boards view ev = some (b, py, px)) :
    b ∈ boards ∧ py < 32 ∧ px < 32 := by
  rw [resolveCell] at h
  dsimp only at h
  cases hh : hitBoard boards ((ev.clientX - view.rectLeft - view.panX) / view.zoom)
      ((ev.clientY - view.rectTop - view.panY) / view.zoom) with
  | none =>
    rw [hh] at h
    dsimp only at h
    cases h
  | some board =>
    rw [hh] at h
    dsimp only at h
    have hbmem : board ∈ boards := List.mem_of_find?_eq_some hh
    split at h
    · rename_i hguard
      obtain ⟨hx0, hx32, hy0, hy32⟩ := hguard
      simp only [Option.some.injEq, Prod.mk.injEq] at h
      obtain ⟨hb, hpy, hpx⟩ := h
      subst hb
      subst hpy
      subst hpx
      exact ⟨hbmem, by omega, by omega⟩
    · cases h

/-- Invariant of the in-progress paint batch relative to the boards at batch
start (`B₀`) and the fixed selected color `sel`. -/
structure GestureInv (B₀ : List BoardData) (sel : String) (st : EditorState) : Prop where
  undo_inv : undoApply st.editedResult.boards st.paintBatch = B₀
  redo_inv : redoApply B₀ st.paintBatch = st.editedResult.boards
  batch_mem : ∀ ch ∈ st.paintBatch,
    ch.newColor = sel ∧
    getPixB st.editedResult.boards ch.boardId ch.y ch.x = sel ∧
    getPixB B₀ ch.boardId ch.y ch.x = ch.oldColor ∧
    ch.oldColor ≠ sel
  cells_nodup : (st.paintBatch.map cellOf).Nodup
  wf : WFBoards st.editedResult.boards

lemma gestureInv_begin (sel : String) (st : EditorState)
    (hwf : WFBoards st.editedResult.boards) :
    GestureInv st.editedResult.boards sel (beginPaint st) :=
  { undo_inv := rfl
    redo_inv := rfl
    batch_mem := fun ch hch => absurd hch (List.not_mem_nil ch)
    cells_nodup := List.nodup_nil
    wf := hwf }

lemma gestureInv_paintPixel {B₀ : List BoardData} {sel : String} {st : EditorState}
    (view : EditorView) (ev : MouseEv) (hinv : GestureInv B₀ sel st) :
    GestureInv B₀ sel (paintPixel sel view ev st) := by
  by_cases hsel : sel = ""
  · rw [paintPixel, if_pos hsel]
    exact hinv
  · rw [paintPixel, if_neg hsel]
    cases hres : resolveCell st.editedResult.boards view ev with
    | none => exact hinv
    | some t =>
      obtain ⟨board, py, px⟩ := t
      obtain ⟨hmem, hpy, hpx⟩ := resolveCell_some hres
      dsimp only
      by_cases hold : getPix board.pixels py px ≠ sel
      · rw [if_pos hold]
        have hval : getPixB st.editedResult.boards board.id py px
            = getPix board.pixels py px :=
          getPixB_of_mem_nodup hinv.wf.1 hmem py px
        have hnotin : (board.id, py, px) ∉ st.paintBatch.map cellOf := by
          intro hin
          obtain ⟨ch, hch, hcell⟩ := List.mem_map.1 hin
          obtain ⟨hcb, hcy, hcx⟩ : ch.boardId = board.id ∧ ch.y = py ∧ ch.x = px := by
            rw [cellOf, Prod.mk.injEq, Prod.mk.injEq] at hcell
            exact ⟨hcell.1, hcell.2.1, hcell.2.2⟩
          have hsel' := (hinv.batch_mem ch hch).2.1
          rw [hcb, hcy, hcx, hval] at hsel'
          exact hold hsel'
        have hBold : getPixB B₀ board.id py px = getPix board.pixels py px := by
          have hfr := getPixB_redoApply_notin st.paintBatch B₀ board.id py px hnotin
          rw [hinv.redo_inv] at hfr
          rw [← hfr, hval]
        have hfind : st.editedResult.boards.find? (fun x => x.id == board.id)
            = some board :=
          find?_eq_some_of_mem_nodup hinv.wf.1 hmem
        obtain ⟨hblen, hbrows⟩ := hinv.wf.2 board hmem
        have hy' : py < board.pixels.length := by rw [hblen]; exact hpy
        have hrow' : ∀ row ∈ board.pixels, px < row.length := fun row hr => by
          rw [hbrows row hr]; exact hpx
        refine
          { undo_inv := ?_
            redo_inv := ?_
            batch_mem := ?_
            cells_nodup := ?_
            wf := ?_ }
        · show undoApply (setPixInBoards st.editedResult.boards board.id py px sel)
            (st.paintBatch ++ [⟨board.id, px, py, getPix board.pixels py px, sel⟩]) = B₀
          rw [undoApply_append, undoApply_setPix_comm st.paintBatch _ _ _ _ _ hnotin,
            hinv.undo_inv]
          show setPixInBoards (setPixInBoards B₀ board.id py px sel) board.id py px
            (getPix board.pixels py px) = B₀
          rw [setPixInBoards_setPixInBoards_same, ← hBold, setPixInBoards_get_self]
        · show redoApply B₀
            (st.paintBatch ++ [⟨board.id, px, py, getPix board.pixels py px, sel⟩])
            = setPixInBoards st.editedResult.boards board.id py px sel
          rw [redoApply_append, hinv.redo_inv]
        · intro ch' hch'
          rcases List.mem_append.1 hch' with hin | hin
          · obtain ⟨hn, hc, ho, hne⟩ := hinv.batch_mem ch' hin
            have hnecell : (ch'.boardId, ch'.y, ch'.x) ≠ (board.id, py, px) := by
              intro he
              exact hnotin (he ▸ List.mem_map_of_mem cellOf hin)
            refine ⟨hn, ?_, ho, hne⟩
            show getPixB (setPixInBoards st.editedResult.boards board.id py px sel)
              ch'.boardId ch'.y ch'.x = sel
            rw [getPixB_set_ne_cell hnecell]
            exact hc
          · rw [List.mem_singleton] at hin
            subst hin
            refine ⟨rfl, ?_, hBold, fun he => hold he⟩
            show getPixB (setPixInBoards st.editedResult.boards board.id py px sel)
              board.id py px = sel
            exact getPixB_setPixInBoards_same _ _ hfind hy' hrow' sel
        · show ((st.paintBatch ++
            [(⟨board.id, px, py, getPix board.pixels py px, sel⟩ : PixelChange)]).map
            cellOf).Nodup
          rw [List.map_append]
          refine List.Nodup.append hinv.cells_nodup (List.nodup_singleton _) ?_
          intro z hz hz2
          rw [List.map_singleton, List.mem_singleton] at hz2
          subst hz2
          exact hnotin hz
        · exact WFBoards_setPixInBoards hinv.wf board.id py px sel
      · rw [if_neg hold]
        exact hinv

lemma gestureInv_runPaintMoves {B₀ : List BoardData} {sel : String}
    (evs : List (EditorView × MouseEv)) :
    ∀ {st : EditorState}, GestureInv B₀ sel st →
      GestureInv B₀ sel (runPaintMoves sel evs st) := by
  induction evs with
  | nil => intro st h; exact h
  | cons e rest ih => intro st h; exact ih (gestureInv_paintPixel e.1 e.2 h)

/-- C5: within one paint gesture (fixed selected color), at most one
PixelChange is recorded per distinct `(boardId, y, x)` cell, and each
change's `oldColor` is the cell's color from before the batch began —
never an intermediate color painted during the same batch. -/
theorem C5_batch_unique_oldColor (st : EditorState) (sel : String)
    (evs : List (EditorView × MouseEv)) (hwf : WFBoards st.editedResult.boards) :
    ((runPaintMoves sel evs (beginPaint st)).paintBatch.map cellOf).Nodup ∧
    ∀ ch ∈ (runPaintMoves sel evs (beginPaint st)).paintBatch,
      ch.oldColor = getPixB st.editedResult.boards ch.boardId ch.y ch.x ∧
      ch.newColor = sel := by
  have hinv := gestureInv_runPaintMoves evs (gestureInv_begin sel st hwf)
  exact ⟨hinv.cells_nodup, fun ch hch =>
    ⟨((hinv.batch_mem ch hch).2.2.1).symm, (hinv.batch_mem ch hch).1⟩⟩

/-- Witness: a fresh single-board editor state satisfies the C5 batch
properties (empty gesture). -/
theorem C5_batch_unique_oldColor_witness :
    WFBoards (⟨⟨"", [], [⟨"A1", ⟨0, 0⟩,
        List.replicate 32 (List.replicate 32 "#FFFFFF")⟩], 0⟩, [], [], false, []⟩ :
        EditorState).editedResult.boards ∧
    ((runPaintMoves "#000000" [] (beginPaint
        (⟨⟨"", [], [⟨"A1", ⟨0, 0⟩,
          List.replicate 32 (List.replicate 32 "#FFFFFF")⟩], 0⟩, [], [], false, []⟩ :
          EditorState))).paintBatch.map cellOf).Nodup :=
  ⟨by simp only [WFBoards]; decide,
    (C5_batch_unique_oldColor _ "#000000" [] (by simp only [WFBoards]; decide)).1⟩

/-! ### Committed-batch chains and the undo/redo round trip -/

lemma paintPixel_shape (sel : String) (view : EditorView) (ev : MouseEv)
    (st : EditorState) :
    ∃ B' batch, paintPixel sel view ev st =
      { st with editedResult := { st.editedResult with boards := B' },
                paintBatch := batch } := by
  obtain ⟨h1, h2, h3, h4, h5, h6⟩ := paintPixel_frame sel view ev st
  exact ⟨(paintPixel sel view ev st).editedResult.boards,
    (paintPixel sel view ev st).paintBatch,
    editorState_ext (pixelationResult_ext h3 h1 rfl h2) h4 h5 h6 rfl⟩

lemma runPaintMoves_shape (sel : String) (evs : List (EditorView × MouseEv)) :
    ∀ st : EditorState,
      ∃ B' batch, runPaintMoves sel evs st =
        { st with editedResult := { st.editedResult with boards := B' },
                  paintBatch := batch } := by
  induction evs with
  | nil =>
    intro st
    exact ⟨st.editedResult.boards, st.paintBatch,
      (editorState_ext (pixelationResult_ext rfl rfl rfl rfl) rfl rfl rfl rfl).symm⟩
  | cons e rest ih =>
    intro st
    obtain ⟨B₁, b₁, h₁⟩ := paintPixel_shape sel e.1 e.2 st
    obtain ⟨B₂, b₂, h₂⟩ := ih (paintPixel sel e.1 e.2 st)
    refine ⟨B₂, b₂, ?_⟩
    show runPaintMoves sel rest (paintPixel sel e.1 e.2 st) = _
    rw [h₂, h₁]

lemma runGesture_spec (g : Gesture) (st : EditorState)
    (hwf : WFBoards st.editedResult.boards) :
    ∃ B' batch,
      undoApply B' batch = st.editedResult.boards ∧
      redoApply st.editedResult.boards batch = B' ∧
      WFBoards B' ∧
      runGesture g st = (if batch = [] then
          { st with editedResult := { st.editedResult with boards := B' },
                    isPainting := false, paintBatch := [] }
        else
          { st with editedResult := { st.editedResult with boards := B' },
                    undoStack := st.undoStack ++ [batch], redoStack := [],
                    isPainting := false, paintBatch := [] }) := by
  have hinv := gestureInv_runPaintMoves g.events (gestureInv_begin g.sel st hwf)
  obtain ⟨B', batch, hshape⟩ := runPaintMoves_shape g.sel g.events (beginPaint st)
  refine ⟨B', batch, ?_, ?_, ?_, ?_⟩
  · have hu := hinv.undo_inv
    rw [hshape] at hu
    exact hu
  · have hr := hinv.redo_inv
    rw [hshape] at hr
    exact hr
  · have hw := hinv.wf
    rw [hshape] at hw
    exact hw
  · rw [runGesture, hshape, handleMouseUp]
    dsimp only
    rw [if_pos (show (beginPaint st).isPainting = true from rfl)]
    by_cases hb : batch = []
    · rw [if_neg (fun hne => hne hb), if_pos hb]
      rfl
    · rw [if_pos hb, if_neg hb]
      rfl

/-- Chain of committed batches below the current boards: walking down the
undo stack (top first) through `undoApply` reaches `base`, and each level's
`redoApply` is a left inverse back up. -/
def UChain (base : List BoardData) : List (List PixelChange) → List BoardData → Prop
  | [], cur => cur = base
  | batch :: rest, cur =>
    redoApply (undoApply cur batch) batch = cur ∧ UChain base rest (undoApply cur batch)

/-- Chain of undone batches above the current boards: walking up the redo
stack (top first) through `redoApply` reaches `target`, each level's
`undoApply` a left inverse back down. -/
def RChain (target : List BoardData) : List (List PixelChange) → List BoardData → Prop
  | [], cur => cur = target
  | batch :: rest, cur =>
    undoApply (redoApply cur batch) batch = cur ∧ RChain target rest (redoApply cur batch)

lemma runGestures_chain (gs : List Gesture) :
    ∀ (st : EditorState) (base : List BoardData),
      WFBoards st.editedResult.boards →
      st.redoStack = [] →
      UChain base st.undoStack.reverse st.editedResult.boards →
      WFBoards (runGestures gs st).editedResult.boards ∧
      (runGestures gs st).redoStack = [] ∧
      UChain base (runGestures gs st).undoStack.reverse
        (runGestures gs st).editedResult.boards := by
  induction gs with
  | nil => intro st base hwf hrs hch; exact ⟨hwf, hrs, hch⟩
  | cons g rest ih =>
    intro st base hwf hrs hch
    obtain ⟨B', batch, hundo, hredo, hwf', hrun⟩ := runGesture_spec g st hwf
    show WFBoards (runGestures rest (runGesture g st)).editedResult.boards ∧
      (runGestures rest (runGesture g st)).redoStack = [] ∧
      UChain base (runGestures rest (runGesture g st)).undoStack.reverse
        (runGestures rest (runGesture g st)).editedResult.boards
    by_cases hb : batch = []
    · rw [hrun, if_pos hb]
      subst hb
      have hB : B' = st.editedResult.boards := hredo.symm
      subst hB
      refine ih _ base ?_ ?_ ?_
      · exact hwf
      · exact hrs
      · exact hch
    · rw [hrun, if_neg hb]
      refine ih _ base ?_ ?_ ?_
      · exact hwf'
      · rfl
      · show UChain base ((st.undoStack ++ [batch]).reverse) B'
        rw [List.reverse_append, List.reverse_singleton, List.singleton_append]
        show redoApply (undoApply B' batch) batch = B' ∧
          UChain base st.undoStack.reverse (undoApply B' batch)
        rw [hundo]
        exact ⟨hredo, hch⟩

lemma undoN_chain :
    ∀ (rev : List (List PixelChange)) (st : EditorState) (base : List BoardData),
      st.undoStack.reverse = rev →
      UChain base rev st.editedResult.boards →
      (undoN rev.length st).editedResult.boards = base ∧
      (undoN rev.length st).undoStack = [] ∧
      (undoN rev.length st).redoStack = st.redoStack ++ rev := by
  intro rev
  induction rev with
  | nil =>
    intro st base hrev hch
    have hus : st.undoStack = [] := by
      have := congrArg List.reverse hrev
      rwa [List.reverse_reverse, List.reverse_nil] at this
    refine ⟨hch, hus, ?_⟩
    show st.redoStack = st.redoStack ++ []
    rw [List.append_nil]
  | cons batch rest ih =>
    intro st base hrev hch
    have hus : st.undoStack = rest.reverse ++ [batch] := by
      have := congrArg List.reverse hrev
      rwa [List.reverse_reverse, List.reverse_cons] at this
    have hlast : st.undoStack.getLast? = some batch := by
      rw [hus]
      exact List.getLast?_concat _
    have hstep : handleUndo st =
        { st with undoStack := st.undoStack.dropLast,
                  redoStack := st.redoStack ++ [batch],
                  editedResult := { st.editedResult with
                    boards := undoApply st.editedResult.boards batch } } := by
      rw [handleUndo, hlast]
    obtain ⟨hc1, hc2⟩ := hch
    have hdrop : (handleUndo st).undoStack.reverse = rest := by
      rw [hstep]
      show (st.undoStack.dropLast).reverse = rest
      rw [hus, List.dropLast_concat, List.reverse_reverse]
    have hres := ih (handleUndo st) base hdrop (by rw [hstep]; exact hc2)
    show (undoN rest.length (handleUndo st)).editedResult.boards = base ∧
      (undoN rest.length (handleUndo st)).undoStack = [] ∧
      (undoN rest.length (handleUndo st)).redoStack = st.redoStack ++ batch :: rest
    refine ⟨hres.1, hres.2.1, ?_⟩
    rw [hres.2.2, hstep]
    show (st.redoStack ++ [batch]) ++ rest = st.redoStack ++ (batch :: rest)
    rw [List.append_assoc, List.singleton_append]

lemma RChain_snoc (T M : List BoardData) (b : List PixelChange) :
    ∀ (l : List (List PixelChange)) (cur : List BoardData),
      RChain M l cur →
      undoApply (redoApply M b) b = M →
      redoApply M b = T →
      RChain T (l ++ [b]) cur
  | [], cur, hl, hb, hT => by
    have hcur : cur = M := hl
    subst hcur
    exact ⟨hb, hT⟩
  | a :: l', cur, hl, hb, hT => by
    obtain ⟨ha, hl'⟩ := hl
    exact ⟨ha, RChain_snoc T M b l' (redoApply cur a) hl' hb hT⟩

lemma UChain_to_RChain :
    ∀ (rev : List (List PixelChange)) (cur base : List BoardData),
      UChain base rev cur → RChain cur rev.reverse base
  | [], cur, base, h => by
    have hcb : cur = base := h
    subst hcb
    show RChain cur [] cur
    rfl
  | b :: rest, cur, base, h => by
    obtain ⟨hb, hrest⟩ := h
    have ih := UChain_to_RChain rest (undoApply cur b) base hrest
    rw [List.reverse_cons]
    refine RChain_snoc cur (undoApply cur b) b rest.reverse base ih ?_ hb
    rw [hb]

lemma redoN_chain :
    ∀ (rev : List (List PixelChange)) (st : EditorState) (T : List BoardData),
      st.redoStack.reverse = rev →
      RChain T rev st.editedResult.boards →
      (redoN rev.length st).editedResult.boards = T := by
  intro rev
  induction rev with
  | nil =>
    intro st T _ hch
    exact hch
  | cons batch rest ih =>
    intro st T hrev hch
    have hrs : st.redoStack = rest.reverse ++ [batch] := by
      have := congrArg List.reverse hrev
      rwa [List.reverse_reverse, List.reverse_cons] at this
    have hlast : st.redoStack.getLast? = some batch := by
      rw [hrs]
      exact List.getLast?_concat _
    have hstep : handleRedo st =
        { st with undoStack := st.undoStack ++ [batch],
                  redoStack := st.redoStack.dropLast,
                  editedResult := { st.editedResult with
                    boards := redoApply st.editedResult.boards batch } } := by
      rw [handleRedo, hlast]
    obtain ⟨_, hc2⟩ := hch
    have hdrop : (handleRedo st).redoStack.reverse = rest := by
      rw [hstep]
      show (st.redoStack.dropLast).reverse = rest
      rw [hrs, List.dropLast_concat, List.reverse_reverse]
    have hres := ih (handleRedo st) T hdrop (by rw [hstep]; exact hc2)
    exact hres

/-- C2: from a state with empty undo/redo stacks, run any sequence of paint
gestures; with `K` the number of committed (non-empty) batches — the
resulting undo-stack length — undoing `K` times restores every board cell to
its pre-edit color, and then redoing `K` times restores the post-edit state. -/
theorem C2_undo_redo_roundtrip (st₀ : EditorState) (gs : List Gesture)
    (hu : st₀.undoStack = []) (hr : st₀.redoStack = [])
    (hwf : WFBoards st₀.editedResult.boards) :
    (undoN (runGestures gs st₀).undoStack.length
        (runGestures gs st₀)).editedResult.boards = st₀.editedResult.boards ∧
    (redoN (runGestures gs st₀).undoStack.length
        (undoN (runGestures gs st₀).undoStack.length
          (runGestures gs st₀))).editedResult.boards
      = (runGestures gs st₀).editedResult.boards := by
  have hinit : UChain st₀.editedResult.boards st₀.undoStack.reverse
      st₀.editedResult.boards := by
    rw [hu]
    rfl
  obtain ⟨hwf₁, hrs₁, hch₁⟩ := runGestures_chain gs st₀ st₀.editedResult.boards hwf hr hinit
  set st₁ := runGestures gs st₀ with hst₁
  have hlen : st₁.undoStack.reverse.length = st₁.undoStack.length :=
    List.length_reverse _
  obtain ⟨hb₂, hu₂, hr₂⟩ := undoN_chain st₁.undoStack.reverse st₁
    st₀.editedResult.boards rfl hch₁
  rw [hlen] at hb₂ hu₂ hr₂
  refine ⟨hb₂, ?_⟩
  have hrch : RChain st₁.editedResult.boards st₁.undoStack.reverse.reverse
      st₀.editedResult.boards :=
    UChain_to_RChain st₁.undoStack.reverse st₁.editedResult.boards
      st₀.editedResult.boards hch₁
  rw [List.reverse_reverse] at hrch
  have hrev₂ : (undoN st₁.undoStack.length st₁).redoStack.reverse = st₁.undoStack := by
    rw [hr₂, hrs₁, List.nil_append]
    exact List.reverse_reverse _
  have hfinal := redoN_chain st₁.undoStack (undoN st₁.undoStack.length st₁)
    st₁.editedResult.boards hrev₂ (by rw [hb₂]; exact hrch)
  exact hfinal

/-- A fresh single-board editor state used as a concrete sample. -/
def sampleEditorState : EditorState :=
  ⟨⟨"", [], [⟨"A1", ⟨0, 0⟩, List.replicate 32 (List.replicate 32 "#FFFFFF")⟩], 0⟩,
    [], [], false, []⟩

/-- Witness: the round trip applied to the sample state. -/
theorem C2_undo_redo_roundtrip_witness :
    (sampleEditorState.undoStack = [] ∧ sampleEditorState.redoStack = [] ∧
      WFBoards sampleEditorState.editedResult.boards) ∧
    ((undoN (runGestures [] sampleEditorState).undoStack.length
        (runGestures [] sampleEditorState)).editedResult.boards
      = sampleEditorState.editedResult.boards ∧
     (redoN (runGestures [] sampleEditorState).undoStack.length
        (undoN (runGestures [] sampleEditorState).undoStack.length
          (runGestures [] sampleEditorState))).editedResult.boards
      = (runGestures [] sampleEditorState).editedResult.boards) :=
  ⟨⟨rfl, rfl, by simp only [WFBoards, sampleEditorState]; decide⟩,
    C2_undo_redo_roundtrip sampleEditorState [] rfl rfl
      (by simp only [WFBoards, sampleEditorState]; decide)⟩

/-- Witness: the nearest-color guarantee instantiated at black against the
first palette entry. -/
theorem C1_findClosest_nearest_witness :
    (⟨"Cactus", "#000000"⟩ : NamedColor) ∈ BRICK_COLORS ∧
    distTo (0, 0, 0) (findClosestBrickColor (0, 0, 0))
      ≤ distTo (0, 0, 0) ⟨"Cactus", "#000000"⟩ :=
  ⟨by decide, (C1_findClosest_nearest (0, 0, 0)).1 _ (by decide)⟩

/-- The identity-bearing fields of a board — everything except the pixels
grid. Preserving the `boardKey` list means an operation can change nothing
about the board list but the pixels grids. -/
def boardKey (b : BoardData) : String × Position := (b.id, b.position)

lemma updateFirst_map_key (p : BoardData → Bool) (f : BoardData → BoardData)
    (hf : ∀ b, boardKey (f b) = boardKey b) :
    ∀ bs : List BoardData, (updateFirst p f bs).map boardKey = bs.map boardKey
  | [] => rfl
  | b :: rest => by
    by_cases hp : p b = true
    · rw [updateFirst, if_pos hp, List.map_cons, List.map_cons, hf]
    · rw [updateFirst, if_neg hp, List.map_cons, List.map_cons,
        updateFirst_map_key p f hf rest]

lemma setPixInBoards_map_key (bs : List BoardData) (bid : String) (y x : Nat)
    (c : String) :
    (setPixInBoards bs bid y x c).map boardKey = bs.map boardKey :=
  updateFirst_map_key (fun b => b.id == bid)
    (fun b => { b with pixels := setPixRows b.pixels y x c }) (fun _ => rfl) bs

lemma undoApply_map_key (batch : List PixelChange) :
    ∀ bs : List BoardData, (undoApply bs batch).map boardKey = bs.map boardKey := by
  induction batch with
  | nil => intro bs; rfl
  | cons ch rest ih =>
    intro bs
    rw [undoApply_cons, ih, setPixInBoards_map_key]

lemma redoApply_map_key (batch : List PixelChange) :
    ∀ bs : List BoardData, (redoApply bs batch).map boardKey = bs.map boardKey := by
  induction batch with
  | nil => intro bs; rfl
  | cons ch rest ih =>
    intro bs
    rw [redoApply_cons, ih, setPixInBoards_map_key]

lemma paintPixel_map_key (sel : String) (view : EditorView) (ev : MouseEv)
    (st : EditorState) :
    (paintPixel sel view ev st).editedResult.boards.map boardKey
      = st.editedResult.boards.map boardKey := by
  rw [paintPixel]
  split
  · rfl
  · split
    · rfl
    · dsimp only
      split
      · exact setPixInBoards_map_key _ _ _ _ _
      · rfl

lemma handleUndo_map_key (st : EditorState) :
    (handleUndo st).editedResult.boards.map boardKey
      = st.editedResult.boards.map boardKey := by
  rw [handleUndo]
  split
  · rfl
  · exact undoApply_map_key _ _

lemma handleRedo_map_key (st : EditorState) :
    (handleRedo st).editedResult.boards.map boardKey
      = st.editedResult.boards.map boardKey := by
  rw [handleRedo]
  split
  · rfl
  · exact redoApply_map_key _ _

/-- C10: paint, undo and redo mutate only the pixels grids of boards — the
board list keeps its length, ids and positions in order (`boardKey` map
preserved), and `colorMap` (entries and counts), `totalTiles` and
`pixelatedImageData` are never changed; in particular color-usage counts are
not recomputed after pixels are repainted. -/
theorem C10_edit_frame (st : EditorState) (sel : String) (view : EditorView)
    (ev : MouseEv) :
    ((paintPixel sel view ev st).editedResult.boards.map boardKey
        = st.editedResult.boards.map boardKey ∧
     (paintPixel sel view ev st).editedResult.colorMap = st.editedResult.colorMap ∧
     (paintPixel sel view ev st).editedResult.totalTiles = st.editedResult.totalTiles ∧
     (paintPixel sel view ev st).editedResult.pixelatedImageData
       = st.editedResult.pixelatedImageData) ∧
    ((handleUndo st).editedResult.boards.map boardKey
        = st.editedResult.boards.map boardKey ∧
     (handleUndo st).editedResult.colorMap = st.editedResult.colorMap ∧
     (handleUndo st).editedResult.totalTiles = st.editedResult.totalTiles ∧
     (handleUndo st).editedResult.pixelatedImageData
       = st.editedResult.pixelatedImageData) ∧
    ((handleRedo st).editedResult.boards.map boardKey
        = st.editedResult.boards.map boardKey ∧
     (handleRedo st).editedResult.colorMap = st.editedResult.colorMap ∧
     (handleRedo st).editedResult.totalTiles = st.editedResult.totalTiles ∧
     (handleRedo st).editedResult.pixelatedImageData
       = st.editedResult.pixelatedImageData) :=
  ⟨⟨paintPixel_map_key sel view ev st,
    (paintPixel_frame sel view ev st).1, (paintPixel_frame sel view ev st).2.1,
    (paintPixel_frame sel view ev st).2.2.1⟩,
   ⟨handleUndo_map_key st,
    (handleUndo_frame st).1, (handleUndo_frame st).2.1, (handleUndo_frame st).2.2.1⟩,
   ⟨handleRedo_map_key st,
    (handleRedo_frame st).1, (handleRedo_frame st).2.1, (handleRedo_frame st).2.2.1⟩⟩
